import Mathlib

/-!
Verification of the Workday event-collector incremental-fetch logic
(`WorkdayEventCollector.py`): pagination under a cap, whole-second
normalization of `requestTime`, boundary deduplication against the
persisted cursor (`last_run`), and the cursor update rule.

Timestamps are modelled as a record of calendar fields; the strict
`datetime.strptime` parses for the two formats used by the code
(`'%Y-%m-%dT%H:%M:%SZ'` and `'%Y-%m-%dT%H:%M:%S.%fZ'`) are modelled as
character-list consumers returning `Option`, and `strftime` for
`'%Y-%m-%dT%H:%M:%SZ'` as zero-padded rendering.  Python exceptions
(`ValueError` from a failed parse) are modelled by `Option`/`none`
propagation: an exception aborts the whole invocation.
-/

/-- A Python `datetime` value: calendar fields plus microseconds. -/
structure DateTime where
  year : Nat
  month : Nat
  day : Nat
  hour : Nat
  minute : Nat
  second : Nat
  microsecond : Nat
deriving DecidableEq

/-- Python `datetime` comparison: lexicographic on the fields. -/
def DateTime.ltb (a b : DateTime) : Bool :=
  if a.year ≠ b.year then decide (a.year < b.year)
  else if a.month ≠ b.month then decide (a.month < b.month)
  else if a.day ≠ b.day then decide (a.day < b.day)
  else if a.hour ≠ b.hour then decide (a.hour < b.hour)
  else if a.minute ≠ b.minute then decide (a.minute < b.minute)
  else if a.second ≠ b.second then decide (a.second < b.second)
  else decide (a.microsecond < b.microsecond)

/-- Mixed-radix encoding of a datetime; on in-range values it is
monotone for the lexicographic order. -/
def DateTime.key (a : DateTime) : Nat :=
  (((((a.year * 13 + a.month) * 32 + a.day) * 24 + a.hour) * 60 + a.minute) * 60
      + a.second) * 1000000 + a.microsecond

/-- Field bounds guaranteed for any value produced by a successful parse. -/
def DateTime.InRange (a : DateTime) : Prop :=
  a.month ≤ 12 ∧ a.day ≤ 31 ∧ a.hour ≤ 23 ∧ a.minute ≤ 59 ∧ a.second ≤ 59 ∧
    a.microsecond ≤ 999999

theorem DateTime.ltb_iff_key {a b : DateTime} (ha : a.InRange) (hb : b.InRange) :
    a.ltb b = true ↔ a.key < b.key := by
  obtain ⟨ha1, ha2, ha3, ha4, ha5, ha6⟩ := ha
  obtain ⟨hb1, hb2, hb3, hb4, hb5, hb6⟩ := hb
  unfold DateTime.ltb DateTime.key
  split_ifs with h1 h2 h3 h4 h5 h6 <;> simp <;> omega

theorem DateTime.not_ltb_iff_key {a b : DateTime} (ha : a.InRange) (hb : b.InRange) :
    a.ltb b = false ↔ b.key ≤ a.key := by
  have h := DateTime.ltb_iff_key ha hb
  constructor
  · intro hf
    rcases Nat.lt_or_ge a.key b.key with hlt | hge
    · exact absurd (h.mpr hlt) (by simp [hf])
    · exact hge
  · intro hle
    cases hab : a.ltb b
    · rfl
    · exact absurd (h.mp hab) (by omega)

/-- Take greedily up to `k` leading decimal digits from `cs`, accumulating
their value; returns (value, number of digits consumed, rest).  Models the
digit groups of CPython's `_strptime` regexes. -/
def takeDigits : Nat → Nat → Nat → List Char → Nat × Nat × List Char
  | 0, acc, n, cs => (acc, n, cs)
  | _ + 1, acc, n, [] => (acc, n, [])
  | k + 1, acc, n, c :: cs =>
      if c.isDigit then takeDigits k (acc * 10 + (c.toNat - 48)) (n + 1) cs
      else (acc, n, c :: cs)

/-- Parse a numeric field of at most `maxDigits` digits whose value must lie
in `[lo, hi]`; at least one digit is required.  A failing range check models
the `ValueError` Python raises (from the regex or the `datetime` constructor). -/
def parseField (maxDigits lo hi : Nat) (cs : List Char) : Option (Nat × List Char) :=
  let r := takeDigits maxDigits 0 0 cs
  if r.2.1 = 0 then none
  else if lo ≤ r.1 ∧ r.1 ≤ hi then some (r.1, r.2.2) else none

/-- Parse the `%f` field: 1 to 6 digits, scaled to microseconds by appending
zeroes, exactly as CPython's `_strptime` does. -/
def parseFrac (cs : List Char) : Option (Nat × List Char) :=
  let r := takeDigits 6 0 0 cs
  if r.2.1 = 0 then none else some (r.1 * 10 ^ (6 - r.2.1), r.2.2)

/-- Consume one expected literal character. -/
def expectChar (c : Char) : List Char → Option (List Char)
  | [] => none
  | x :: xs => if x = c then some xs else none

def isLeapYear (y : Nat) : Bool := (y % 4 = 0 ∧ y % 100 ≠ 0) ∨ y % 400 = 0

def daysInMonth (y m : Nat) : Nat :=
  if m = 2 then (if isLeapYear y then 29 else 28)
  else if m = 4 ∨ m = 6 ∨ m = 9 ∨ m = 11 then 30 else 31

/-- Parse the common leading part `'%Y-%m-%dT%H:%M:%S'` of both formats used
by the integration, validating field ranges as `datetime.strptime` does
(day-of-month checked against the month, seconds capped at 59 by the
`datetime` constructor). -/
def parseYmdHms (cs0 : List Char) : Option (DateTime × List Char) := do
  let (y, cs) ← parseField 4 1 9999 cs0
  let cs ← expectChar '-' cs
  let (mo, cs) ← parseField 2 1 12 cs
  let cs ← expectChar '-' cs
  let (d, cs) ← parseField 2 1 31 cs
  if daysInMonth y mo < d then none
  else do
    let cs ← expectChar 'T' cs
    let (h, cs) ← parseField 2 0 23 cs
    let cs ← expectChar ':' cs
    let (mi, cs) ← parseField 2 0 59 cs
    let cs ← expectChar ':' cs
    let (s, cs) ← parseField 2 0 59 cs
    pure (⟨y, mo, d, h, mi, s, 0⟩, cs)

/-- `datetime.strptime(s, '%Y-%m-%dT%H:%M:%SZ')`, i.e. `DATE_FORMAT`;
`none` models the raised `ValueError`. -/
def strptime_date_format (s : String) : Option DateTime := do
  let (dt, cs) ← parseYmdHms s.toList
  let cs ← expectChar 'Z' cs
  if cs.isEmpty then some dt else none

/-- `datetime.strptime(s, '%Y-%m-%dT%H:%M:%S.%fZ')`, the format used by
`remove_milliseconds_from_time_of_loggings`. -/
def strptime_ms_format (s : String) : Option DateTime := do
  let (dt, cs) ← parseYmdHms s.toList
  let cs ← expectChar '.' cs
  let (micro, cs) ← parseFrac cs
  let cs ← expectChar 'Z' cs
  if cs.isEmpty then some { dt with microsecond := micro } else none

def pad2 (n : Nat) : String := if n < 10 then "0" ++ toString n else toString n

def pad4 (n : Nat) : String :=
  if n < 10 then "000" ++ toString n
  else if n < 100 then "00" ++ toString n
  else if n < 1000 then "0" ++ toString n
  else toString n

/-- `datetime.strftime(d, '%Y-%m-%dT%H:%M:%SZ')`: the format has no `%f`
directive, so the microsecond field is simply not rendered (this is how the
code truncates sub-second precision). -/
def strftime_date_format (d : DateTime) : String :=
  pad4 d.year ++ "-" ++ pad2 d.month ++ "-" ++ pad2 d.day ++ "T" ++
    pad2 d.hour ++ ":" ++ pad2 d.minute ++ ":" ++ pad2 d.second ++ "Z"

/-- A vendor activity logging record: the fields the cursor logic reads
(`taskId`, `requestTime`); all other payload fields are opaque and never
inspected by the functions modelled here. -/
structure Logging where
  taskId : String
  requestTime : String
deriving DecidableEq

/-- The persisted `last_run` dict: `last_fetch_time` (absent on the first
invocation) and `last_fetched_loggings` (read back through `set(...)`, so
modelled as a `Finset`; absent key defaults to the empty set). -/
structure LastRun where
  last_fetch_time : Option String
  last_fetched_loggings : Option (Finset String)
deriving DecidableEq

/-- Parsed `requestTime` of a record (defaulting arbitrarily; only used
under a hypothesis that the parse succeeds). -/
def ptime (r : Logging) : DateTime :=
  (strptime_date_format r.requestTime).getD ⟨0, 0, 0, 0, 0, 0, 0⟩

/-- Parsed form of a timestamp string, with default. -/
def pstr (s : String) : DateTime :=
  (strptime_date_format s).getD ⟨0, 0, 0, 0, 0, 0, 0⟩

/-- Order key of a timestamp string. -/
def pkey (s : String) : Nat := (pstr s).key

/-- The loop of `remove_duplicated_activity_logging`: a single left-to-right
pass carrying the running `time_to_check` and the running seen-id set.  Each
step parses the record's `requestTime` and the current `time_to_check` with
`DATE_FORMAT` (a failed parse raises, modelled by `none`); a record with a
strictly greater time advances `time_to_check` and resets the set to that
record's id; otherwise the record is dropped when its id is in the set and
kept (with its id added) when it is not.  The Python code iterates over a
copy and drops via `list.remove` on the original, which on (structurally
equal) dict values is the same as not keeping the current record. -/
def dedupGo (logs : List Logging) (t : String) (seen : Finset String) :
    Option (List Logging × String × Finset String) :=
  match logs with
  | [] => some ([], t, seen)
  | r :: rest =>
    match strptime_date_format r.requestTime, strptime_date_format t with
    | some rt, some tt =>
      if tt.ltb rt then
        match dedupGo rest r.requestTime {r.taskId} with
        | some (k, t2, s2) => some (r :: k, t2, s2)
        | none => none
      else if r.taskId ∈ seen then dedupGo rest t seen
      else
        match dedupGo rest t (insert r.taskId seen) with
        | some (k, t2, s2) => some (r :: k, t2, s2)
        | none => none
    | _, _ => none

/-- `remove_duplicated_activity_logging(activity_loggings, last_run,
time_to_check)`: seeds the running set from
`set(last_run.get('last_fetched_loggings', []))` and runs the pass;
returns the surviving records and the final seen-id set. -/
def remove_duplicated_activity_logging (activity_loggings : List Logging)
    (last_run : LastRun) (time_to_check : String) :
    Option (List Logging × Finset String) :=
  match dedupGo activity_loggings time_to_check
      (last_run.last_fetched_loggings.getD ∅) with
  | some (k, _, s) => some (k, s)
  | none => none

/-- Body of the loop in `remove_milliseconds_from_time_of_loggings`: parse
`requestTime` strictly against `'%Y-%m-%dT%H:%M:%S.%fZ'` and re-render it
with `DATE_FORMAT`.  (The source's `request_time_date_obj.replace(microsecond=0)`
discards its result, but `DATE_FORMAT` has no `%f`, so rendering drops the
sub-second part regardless.) -/
def remove_milliseconds_one (l : Logging) : Option Logging :=
  match strptime_ms_format l.requestTime with
  | none => none
  | some dt => some { l with requestTime := strftime_date_format dt }

/-- `remove_milliseconds_from_time_of_loggings`: normalize every record in
order; the first failing parse raises and aborts (`none`). -/
def remove_milliseconds_from_time_of_loggings (activity_loggings : List Logging) :
    Option (List Logging) :=
  activity_loggings.mapM remove_milliseconds_one

/-- The `while logging_to_fetch > 0` loop of `get_max_fetch_activity_logging`,
instrumented with the list of page calls made (offset, limit).  `getPage`
stands for `client.get_activity_logging_request`. -/
def get_max_go (getPage : String → String → Nat → Int → List Logging)
    (from_date to_date : String) (acc : List Logging) (offset : Nat)
    (logging_to_fetch : Int) (calls : List (Nat × Int)) :
    List Logging × List (Nat × Int) :=
  if hpos : 0 < logging_to_fetch then
    if hres : getPage from_date to_date offset
        (if logging_to_fetch < 1000 then logging_to_fetch else 1000) = [] then
      (acc ++ getPage from_date to_date offset
          (if logging_to_fetch < 1000 then logging_to_fetch else 1000),
        calls ++ [(offset, if logging_to_fetch < 1000 then logging_to_fetch else 1000)])
    else
      get_max_go getPage from_date to_date
        (acc ++ getPage from_date to_date offset
          (if logging_to_fetch < 1000 then logging_to_fetch else 1000))
        (offset + (getPage from_date to_date offset
          (if logging_to_fetch < 1000 then logging_to_fetch else 1000)).length)
        (logging_to_fetch - (getPage from_date to_date offset
          (if logging_to_fetch < 1000 then logging_to_fetch else 1000)).length)
        (calls ++ [(offset, if logging_to_fetch < 1000 then logging_to_fetch else 1000)])
  else (acc, calls)
termination_by logging_to_fetch.toNat
decreasing_by
  simp_wf
  exact ⟨hpos, List.length_pos.mpr hres⟩

/-- `get_max_fetch_activity_logging(client, logging_to_fetch, from_date,
to_date)`: accumulated records of the paging loop. -/
def get_max_fetch_activity_logging (getPage : String → String → Nat → Int → List Logging)
    (logging_to_fetch : Int) (from_date to_date : String) : List Logging :=
  (get_max_go getPage from_date to_date [] 0 logging_to_fetch []).1

/-- The sequence of page calls (offset, limit) issued by the paging loop. -/
def get_max_fetch_activity_logging_calls
    (getPage : String → String → Nat → Int → List Logging)
    (logging_to_fetch : Int) (from_date to_date : String) : List (Nat × Int) :=
  (get_max_go getPage from_date to_date [] 0 logging_to_fetch []).2

/-- Lines 239-249 of `fetch_activity_logging`: deduplicate the (already
normalized) candidates against the cursor, and if any record survived,
replace `last_run` by `{'last_fetch_time': <requestTime of the last
surviving record>, 'last_fetched_loggings': <final seen-id set>}`;
otherwise return `last_run` unchanged. -/
def dedup_and_set_last_run (activity_loggings : List Logging)
    (last_run : LastRun) (from_date : String) :
    Option (List Logging × LastRun) :=
  match remove_duplicated_activity_logging activity_loggings last_run from_date with
  | none => none
  | some (kept, seen) =>
    match kept.getLast? with
    | none => some (kept, last_run)
    | some lastLog => some (kept, ⟨some lastLog.requestTime, some seen⟩)

/-- `fetch_activity_logging(client, max_fetch, first_fetch, last_run)`.
`now` stands for `datetime.now(tz=timezone.utc)` (injected), `getPage` for
the client's page request.  Returns the surviving records and the new
`last_run`; `none` models an uncaught exception aborting the invocation. -/
def fetch_activity_logging (getPage : String → String → Nat → Int → List Logging)
    (max_fetch : Int) (first_fetch : DateTime) (now : DateTime)
    (last_run : LastRun) : Option (List Logging × LastRun) :=
  let from_date := last_run.last_fetch_time.getD (strftime_date_format first_fetch)
  let to_date := strftime_date_format now
  let activity_loggings :=
    get_max_fetch_activity_logging getPage max_fetch from_date to_date
  match remove_milliseconds_from_time_of_loggings activity_loggings with
  | none => none
  | some normalized => dedup_and_set_last_run normalized last_run from_date

theorem get_max_go_stop (getPage : String → String → Nat → Int → List Logging)
    (f t : String) (acc : List Logging) (off : Nat) (ltf : Int)
    (calls : List (Nat × Int)) (h : 0 < ltf)
    (he : getPage f t off (if ltf < 1000 then ltf else 1000) = []) :
    get_max_go getPage f t acc off ltf calls =
      (acc, calls ++ [(off, if ltf < 1000 then ltf else 1000)]) := by
  rw [get_max_go]
  simp [h, he]

theorem get_max_go_page (getPage : String → String → Nat → Int → List Logging)
    (f t : String) (acc : List Logging) (off : Nat) (ltf : Int)
    (calls : List (Nat × Int)) (h : 0 < ltf)
    (hne : getPage f t off (if ltf < 1000 then ltf else 1000) ≠ []) :
    get_max_go getPage f t acc off ltf calls =
      get_max_go getPage f t
        (acc ++ getPage f t off (if ltf < 1000 then ltf else 1000))
        (off + (getPage f t off (if ltf < 1000 then ltf else 1000)).length)
        (ltf - (getPage f t off (if ltf < 1000 then ltf else 1000)).length)
        (calls ++ [(off, if ltf < 1000 then ltf else 1000)]) := by
  rw [get_max_go]
  simp [h, hne]

theorem get_max_go_done (getPage : String → String → Nat → Int → List Logging)
    (f t : String) (acc : List Logging) (off : Nat) (ltf : Int)
    (calls : List (Nat × Int)) (h : ¬ 0 < ltf) :
    get_max_go getPage f t acc off ltf calls = (acc, calls) := by
  rw [get_max_go]
  simp [h]

theorem get_max_fetch_activity_logging_eq
    (getPage : String → String → Nat → Int → List Logging)
    (ltf : Int) (f t : String) :
    get_max_fetch_activity_logging getPage ltf f t =
      (get_max_go getPage f t [] 0 ltf []).1 := rfl

theorem get_max_fetch_activity_logging_calls_eq
    (getPage : String → String → Nat → Int → List Logging)
    (ltf : Int) (f t : String) :
    get_max_fetch_activity_logging_calls getPage ltf f t =
      (get_max_go getPage f t [] 0 ltf []).2 := rfl

/-! ### Facts about the timestamp parse -/

theorem parseField_le {m lo hi : Nat} {cs : List Char} {v : Nat} {rest : List Char}
    (h : parseField m lo hi cs = some (v, rest)) : lo ≤ v ∧ v ≤ hi := by
  simp only [parseField] at h
  split_ifs at h with h1 h2
  simp only [Option.some.injEq, Prod.mk.injEq] at h
  obtain ⟨hv, _⟩ := h
  subst hv
  exact h2

theorem parseYmdHms_InRange {cs : List Char} {d : DateTime} {rest : List Char}
    (h : parseYmdHms cs = some (d, rest)) : d.InRange ∧ d.microsecond = 0 := by
  unfold parseYmdHms at h
  simp only [Option.bind_eq_bind, Option.bind_eq_some, Option.pure_def,
    Option.some_inj] at h
  obtain ⟨⟨y, cs1⟩, hy, cs2, hc1, ⟨mo, cs3⟩, hmo, cs4, hc2, ⟨dd, cs5⟩, hd, hrest⟩ := h
  simp only at hrest
  split_ifs at hrest with hday
  simp only [Option.bind_eq_bind, Option.bind_eq_some, Option.some_inj] at hrest
  obtain ⟨cs6, hc3, ⟨hh, cs7⟩, hhour, cs8, hc4, ⟨mi, cs9⟩, hmin, cs10, hc5,
    ⟨ss, cs11⟩, hsec, hfin⟩ := hrest
  simp only [Prod.mk.injEq] at hfin
  obtain ⟨hde, _⟩ := hfin
  have h2 := parseField_le hmo
  have h3 := parseField_le hd
  have h4 := parseField_le hhour
  have h5 := parseField_le hmin
  have h6 := parseField_le hsec
  subst hde
  exact ⟨⟨h2.2, h3.2, h4.2, h5.2, h6.2, by norm_num⟩, rfl⟩

theorem strptime_date_InRange {s : String} {d : DateTime}
    (h : strptime_date_format s = some d) : d.InRange ∧ d.microsecond = 0 := by
  unfold strptime_date_format at h
  simp only [Option.bind_eq_bind, Option.bind_eq_some] at h
  obtain ⟨⟨d1, cs1⟩, h1, cs2, _, hfin⟩ := h
  split_ifs at hfin with he
  obtain rfl : d1 = d := by simpa using hfin
  exact parseYmdHms_InRange h1

theorem ptime_spec {r : Logging} (h : (strptime_date_format r.requestTime).isSome) :
    strptime_date_format r.requestTime = some (ptime r) := by
  unfold ptime
  obtain ⟨d, hd⟩ := Option.isSome_iff_exists.mp h
  rw [hd]
  rfl

theorem pstr_spec {s : String} (h : (strptime_date_format s).isSome) :
    strptime_date_format s = some (pstr s) := by
  unfold pstr
  obtain ⟨d, hd⟩ := Option.isSome_iff_exists.mp h
  rw [hd]
  rfl

theorem pstr_requestTime (r : Logging) : pstr r.requestTime = ptime r := rfl

theorem ptime_InRange {r : Logging} (h : (strptime_date_format r.requestTime).isSome) :
    (ptime r).InRange :=
  (strptime_date_InRange (ptime_spec h)).1

theorem pstr_InRange {s : String} (h : (strptime_date_format s).isSome) :
    (pstr s).InRange :=
  (strptime_date_InRange (pstr_spec h)).1

/-! ### Structural lemmas about the deduplication pass -/

theorem dedupGo_isSome (logs : List Logging) (t : String) (seen : Finset String)
    (ht : (strptime_date_format t).isSome)
    (hall : ∀ r ∈ logs, (strptime_date_format r.requestTime).isSome) :
    ∃ out, dedupGo logs t seen = some out := by
  induction logs generalizing t seen with
  | nil => exact ⟨([], t, seen), rfl⟩
  | cons r rest ih =>
    have hr := ptime_spec (hall r (by simp))
    have htt := pstr_spec ht
    have hrest : ∀ x ∈ rest, (strptime_date_format x.requestTime).isSome :=
      fun x hx => hall x (by simp [hx])
    simp only [dedupGo, hr, htt]
    by_cases hlt : (pstr t).ltb (ptime r) = true
    · simp only [hlt, if_true]
      obtain ⟨⟨k, t2, s2⟩, hout⟩ := ih r.requestTime {r.taskId}
        (by rw [ptime_spec (hall r (by simp))]; rfl) hrest
      rw [hout]
      exact ⟨(r :: k, t2, s2), rfl⟩
    · have hltb : (pstr t).ltb (ptime r) = false := by
        cases hb : (pstr t).ltb (ptime r)
        · rfl
        · exact absurd hb hlt
      simp only [hltb, Bool.false_eq_true, if_false]
      by_cases hmem : r.taskId ∈ seen
      · simpa [hmem] using ih t seen ht hrest
      · simp only [hmem, if_false]
        obtain ⟨⟨k, t2, s2⟩, hout⟩ := ih t (insert r.taskId seen) ht hrest
        rw [hout]
        exact ⟨(r :: k, t2, s2), rfl⟩

/-- One step of the pass, with the recursion expressed through `Option.map`. -/
theorem dedupGo_cons (r : Logging) (rest : List Logging) (t : String)
    (seen : Finset String)
    (hr : strptime_date_format r.requestTime = some (ptime r))
    (ht : strptime_date_format t = some (pstr t)) :
    dedupGo (r :: rest) t seen =
      if (pstr t).ltb (ptime r) then
        (dedupGo rest r.requestTime {r.taskId}).map fun out => (r :: out.1, out.2)
      else if r.taskId ∈ seen then dedupGo rest t seen
      else (dedupGo rest t (insert r.taskId seen)).map fun out => (r :: out.1, out.2) := by
  simp only [dedupGo, hr, ht]
  by_cases hlt : (pstr t).ltb (ptime r) = true
  · simp only [hlt, if_true]
    rcases dedupGo rest r.requestTime {r.taskId} with _ | ⟨⟨k, t2, s2⟩⟩ <;> rfl
  · have hltb : (pstr t).ltb (ptime r) = false := by
      cases hb : (pstr t).ltb (ptime r)
      · rfl
      · exact absurd hb hlt
    simp only [hltb, Bool.false_eq_true, if_false]
    by_cases hmem : r.taskId ∈ seen
    · simp only [hmem, if_true]
    · simp only [hmem, if_false]
      rcases dedupGo rest t (insert r.taskId seen) with _ | ⟨⟨k, t2, s2⟩⟩ <;> rfl

/-- The surviving records form a sublist of the input. -/
theorem dedupGo_sublist {logs : List Logging} {t : String} {seen : Finset String}
    {k : List Logging} {t2 : String} {s2 : Finset String}
    (ht : (strptime_date_format t).isSome)
    (hall : ∀ r ∈ logs, (strptime_date_format r.requestTime).isSome)
    (h : dedupGo logs t seen = some (k, t2, s2)) : k.Sublist logs := by
  induction logs generalizing t seen k t2 s2 with
  | nil =>
    simp only [dedupGo, Option.some.injEq, Prod.mk.injEq] at h
    obtain ⟨rfl, rfl, rfl⟩ := h
    exact List.Sublist.refl []
  | cons r rest ih =>
    have hrest : ∀ x ∈ rest, (strptime_date_format x.requestTime).isSome :=
      fun x hx => hall x (by simp [hx])
    rw [dedupGo_cons r rest t seen (ptime_spec (hall r (by simp))) (pstr_spec ht)] at h
    split_ifs at h with hlt hmem
    · rw [Option.map_eq_some'] at h
      obtain ⟨⟨k', t', s'⟩, hrec, hmap⟩ := h
      simp only [Prod.mk.injEq] at hmap
      obtain ⟨rfl, rfl, rfl⟩ := hmap
      exact (ih (by rw [ptime_spec (hall r (by simp))]; rfl) hrest hrec).cons₂ r
    · exact (ih ht hrest h).cons r
    · rw [Option.map_eq_some'] at h
      obtain ⟨⟨k', t', s'⟩, hrec, hmap⟩ := h
      simp only [Prod.mk.injEq] at hmap
      obtain ⟨rfl, rfl, rfl⟩ := hmap
      exact (ih ht hrest hrec).cons₂ r

/-- If no record survives, the pass neither advanced the running time nor
changed the seen-id set. -/
theorem dedupGo_nil_kept {logs : List Logging} {t : String} {seen : Finset String}
    {t2 : String} {s2 : Finset String}
    (ht : (strptime_date_format t).isSome)
    (hall : ∀ r ∈ logs, (strptime_date_format r.requestTime).isSome)
    (h : dedupGo logs t seen = some ([], t2, s2)) : t2 = t ∧ s2 = seen := by
  induction logs generalizing t seen with
  | nil =>
    simp only [dedupGo, Option.some.injEq, Prod.mk.injEq] at h
    exact ⟨h.2.1.symm, h.2.2.symm⟩
  | cons r rest ih =>
    have hrest : ∀ x ∈ rest, (strptime_date_format x.requestTime).isSome :=
      fun x hx => hall x (by simp [hx])
    rw [dedupGo_cons r rest t seen (ptime_spec (hall r (by simp))) (pstr_spec ht)] at h
    split_ifs at h with hlt hmem
    · rw [Option.map_eq_some'] at h
      obtain ⟨⟨k', t', s'⟩, -, hmap⟩ := h
      simp at hmap
    · exact ih ht hrest h
    · rw [Option.map_eq_some'] at h
      obtain ⟨⟨k', t', s'⟩, -, hmap⟩ := h
      simp at hmap

/-- The running time only moves forward: the final `time_to_check` parses,
its key dominates the initial one, and either nothing advanced (final time
is the initial string and the seen set only grew) or the advance was strict. -/
theorem dedupGo_time_facts {logs : List Logging} {t : String} {seen : Finset String}
    {k : List Logging} {t2 : String} {s2 : Finset String}
    (ht : (strptime_date_format t).isSome)
    (hall : ∀ r ∈ logs, (strptime_date_format r.requestTime).isSome)
    (h : dedupGo logs t seen = some (k, t2, s2)) :
    (strptime_date_format t2).isSome ∧ pkey t ≤ pkey t2 ∧
      ((t2 = t ∧ seen ⊆ s2) ∨ pkey t < pkey t2) := by
  induction logs generalizing t seen k t2 s2 with
  | nil =>
    simp only [dedupGo, Option.some.injEq, Prod.mk.injEq] at h
    obtain ⟨rfl, rfl, rfl⟩ := h
    exact ⟨ht, le_refl _, Or.inl ⟨rfl, Finset.Subset.refl _⟩⟩
  | cons r rest ih =>
    have hr := ptime_spec (hall r (by simp))
    have hrs : (strptime_date_format r.requestTime).isSome := by rw [hr]; rfl
    have hrest : ∀ x ∈ rest, (strptime_date_format x.requestTime).isSome :=
      fun x hx => hall x (by simp [hx])
    rw [dedupGo_cons r rest t seen hr (pstr_spec ht)] at h
    split_ifs at h with hlt hmem
    · rw [Option.map_eq_some'] at h
      obtain ⟨⟨k', t', s'⟩, hrec, hmap⟩ := h
      simp only [Prod.mk.injEq] at hmap
      obtain ⟨rfl, rfl, rfl⟩ := hmap
      obtain ⟨h1, h2, h3⟩ := ih hrs hrest hrec
      have hkey : pkey t < pkey r.requestTime :=
        (DateTime.ltb_iff_key (pstr_InRange ht) (ptime_InRange hrs)).mp hlt
      exact ⟨h1, by omega, Or.inr (by omega)⟩
    · obtain ⟨h1, h2, h3⟩ := ih ht hrest h
      exact ⟨h1, h2, h3⟩
    · rw [Option.map_eq_some'] at h
      obtain ⟨⟨k', t', s'⟩, hrec, hmap⟩ := h
      simp only [Prod.mk.injEq] at hmap
      obtain ⟨rfl, rfl, rfl⟩ := hmap
      obtain ⟨h1, h2, h3⟩ := ih ht hrest hrec
      rcases h3 with ⟨rfl, hsub⟩ | hstrict
      · exact ⟨h1, h2, Or.inl ⟨rfl, (Finset.subset_insert _ _).trans hsub⟩⟩
      · exact ⟨h1, h2, Or.inr hstrict⟩

/-- Every surviving record's time is at most the final `time_to_check`. -/
theorem dedupGo_kept_le {logs : List Logging} {t : String} {seen : Finset String}
    {k : List Logging} {t2 : String} {s2 : Finset String}
    (ht : (strptime_date_format t).isSome)
    (hall : ∀ r ∈ logs, (strptime_date_format r.requestTime).isSome)
    (h : dedupGo logs t seen = some (k, t2, s2)) :
    ∀ x ∈ k, (ptime x).key ≤ pkey t2 := by
  induction logs generalizing t seen k t2 s2 with
  | nil =>
    simp only [dedupGo, Option.some.injEq, Prod.mk.injEq] at h
    obtain ⟨rfl, rfl, rfl⟩ := h
    simp
  | cons r rest ih =>
    have hr := ptime_spec (hall r (by simp))
    have hrs : (strptime_date_format r.requestTime).isSome := by rw [hr]; rfl
    have hrest : ∀ x ∈ rest, (strptime_date_format x.requestTime).isSome :=
      fun x hx => hall x (by simp [hx])
    rw [dedupGo_cons r rest t seen hr (pstr_spec ht)] at h
    split_ifs at h with hlt hmem
    · rw [Option.map_eq_some'] at h
      obtain ⟨⟨k', t', s'⟩, hrec, hmap⟩ := h
      simp only [Prod.mk.injEq] at hmap
      obtain ⟨rfl, rfl, rfl⟩ := hmap
      intro x hx
      rcases List.mem_cons.mp hx with rfl | hx'
      · exact (dedupGo_time_facts hrs hrest hrec).2.1
      · exact ih hrs hrest hrec x hx'
    · exact ih ht hrest h
    · rw [Option.map_eq_some'] at h
      obtain ⟨⟨k', t', s'⟩, hrec, hmap⟩ := h
      simp only [Prod.mk.injEq] at hmap
      obtain ⟨rfl, rfl, rfl⟩ := hmap
      intro x hx
      rcases List.mem_cons.mp hx with rfl | hx'
      · have hle : (ptime x).key ≤ pkey t :=
          (DateTime.not_ltb_iff_key (pstr_InRange ht) (ptime_InRange hrs)).mp
            (by cases hb : (pstr t).ltb (ptime x)
                · rfl
                · exact absurd hb hlt)
        exact hle.trans (dedupGo_time_facts ht hrest hrec).2.1
      · exact ih ht hrest hrec x hx'

/-- A surviving record whose time equals the final `time_to_check` has its id
in the final seen set. -/
theorem dedupGo_kept_final_mem {logs : List Logging} {t : String}
    {seen : Finset String} {k : List Logging} {t2 : String} {s2 : Finset String}
    (ht : (strptime_date_format t).isSome)
    (hall : ∀ r ∈ logs, (strptime_date_format r.requestTime).isSome)
    (h : dedupGo logs t seen = some (k, t2, s2)) :
    ∀ x ∈ k, (ptime x).key = pkey t2 → x.taskId ∈ s2 := by
  induction logs generalizing t seen k t2 s2 with
  | nil =>
    simp only [dedupGo, Option.some.injEq, Prod.mk.injEq] at h
    obtain ⟨rfl, rfl, rfl⟩ := h
    simp
  | cons r rest ih =>
    have hr := ptime_spec (hall r (by simp))
    have hrs : (strptime_date_format r.requestTime).isSome := by rw [hr]; rfl
    have hrest : ∀ x ∈ rest, (strptime_date_format x.requestTime).isSome :=
      fun x hx => hall x (by simp [hx])
    rw [dedupGo_cons r rest t seen hr (pstr_spec ht)] at h
    split_ifs at h with hlt hmem
    · rw [Option.map_eq_some'] at h
      obtain ⟨⟨k', t', s'⟩, hrec, hmap⟩ := h
      simp only [Prod.mk.injEq] at hmap
      obtain ⟨rfl, rfl, rfl⟩ := hmap
      intro x hx hkeq
      rcases List.mem_cons.mp hx with rfl | hx'
      · rcases (dedupGo_time_facts hrs hrest hrec).2.2 with ⟨rfl, hsub⟩ | hstrict
        · exact hsub (Finset.mem_singleton_self _)
        · exact absurd hkeq (by have : pkey x.requestTime = (ptime x).key := rfl; omega)
      · exact ih hrs hrest hrec x hx' hkeq
    · exact ih ht hrest h
    · rw [Option.map_eq_some'] at h
      obtain ⟨⟨k', t', s'⟩, hrec, hmap⟩ := h
      simp only [Prod.mk.injEq] at hmap
      obtain ⟨rfl, rfl, rfl⟩ := hmap
      intro x hx hkeq
      rcases List.mem_cons.mp hx with rfl | hx'
      · rcases (dedupGo_time_facts ht hrest hrec).2.2 with ⟨rfl, hsub⟩ | hstrict
        · exact hsub (Finset.mem_insert_self _ _)
        · have hle : (ptime x).key ≤ pkey t :=
            (DateTime.not_ltb_iff_key (pstr_InRange ht) (ptime_InRange hrs)).mp
              (by cases hb : (pstr t).ltb (ptime x)
                  · rfl
                  · exact absurd hb hlt)
          omega
      · exact ih ht hrest hrec x hx' hkeq

/-- Non-decreasing input order, stated on the parsed keys. -/
def SortedByTime (logs : List Logging) : Prop :=
  logs.Pairwise fun a b => (ptime a).key ≤ (ptime b).key

/-- With input at or after the running time and in non-decreasing order, the
last surviving record sits exactly at the final `time_to_check`. -/
theorem dedupGo_last_kept {logs : List Logging} {t : String} {seen : Finset String}
    {k : List Logging} {t2 : String} {s2 : Finset String}
    (ht : (strptime_date_format t).isSome)
    (hall : ∀ r ∈ logs, (strptime_date_format r.requestTime).isSome)
    (hsorted : SortedByTime logs)
    (hge : ∀ r ∈ logs, pkey t ≤ (ptime r).key)
    (h : dedupGo logs t seen = some (k, t2, s2)) :
    ∀ x, k.getLast? = some x → (ptime x).key = pkey t2 := by
  induction logs generalizing t seen k t2 s2 with
  | nil =>
    simp only [dedupGo, Option.some.injEq, Prod.mk.injEq] at h
    obtain ⟨rfl, rfl, rfl⟩ := h
    simp
  | cons r rest ih =>
    have hr := ptime_spec (hall r (by simp))
    have hrs : (strptime_date_format r.requestTime).isSome := by rw [hr]; rfl
    have hrest : ∀ x ∈ rest, (strptime_date_format x.requestTime).isSome :=
      fun x hx => hall x (by simp [hx])
    obtain ⟨hhead, hsorted'⟩ := List.pairwise_cons.mp hsorted
    rw [dedupGo_cons r rest t seen hr (pstr_spec ht)] at h
    split_ifs at h with hlt hmem
    · rw [Option.map_eq_some'] at h
      obtain ⟨⟨k', t', s'⟩, hrec, hmap⟩ := h
      simp only [Prod.mk.injEq] at hmap
      obtain ⟨rfl, rfl, rfl⟩ := hmap
      intro x hx
      by_cases hk : k' = []
      · subst hk
        simp only [List.getLast?_singleton, Option.some.injEq] at hx
        subst hx
        obtain ⟨rfl, -⟩ := dedupGo_nil_kept hrs hrest hrec
        rfl
      · obtain ⟨y, ys, rfl⟩ := List.exists_cons_of_ne_nil hk
        rw [List.getLast?_cons_cons] at hx
        exact ih hrs hrest hsorted'
          (fun y hy => by
            have := hhead y hy
            have : pkey r.requestTime = (ptime r).key := rfl
            omega)
          hrec x hx
    · exact ih ht hrest hsorted' (fun y hy => hge y (by simp [hy])) h
    · rw [Option.map_eq_some'] at h
      obtain ⟨⟨k', t', s'⟩, hrec, hmap⟩ := h
      simp only [Prod.mk.injEq] at hmap
      obtain ⟨rfl, rfl, rfl⟩ := hmap
      intro x hx
      by_cases hk : k' = []
      · subst hk
        simp only [List.getLast?_singleton, Option.some.injEq] at hx
        subst hx
        obtain ⟨heq, -⟩ := dedupGo_nil_kept ht hrest hrec
        subst heq
        have hle : (ptime r).key ≤ pkey t' :=
          (DateTime.not_ltb_iff_key (pstr_InRange ht) (ptime_InRange hrs)).mp
            (by cases hb : (pstr t').ltb (ptime r)
                · rfl
                · exact absurd hb hlt)
        have hge' := hge r (by simp)
        omega
      · obtain ⟨y, ys, rfl⟩ := List.exists_cons_of_ne_nil hk
        rw [List.getLast?_cons_cons] at hx
        exact ih ht hrest hsorted' (fun y hy => hge y (by simp [hy])) hrec x hx

/-- A record at the original watermark whose id is in the original seed set
never survives (input at or after the running time, in order).  `t0` and
`s0` are the original watermark and seed; `t`, `seen` the running state. -/
theorem dedupGo_boundary_drop {logs : List Logging} {t t0 : String}
    {seen s0 : Finset String} {k : List Logging} {t2 : String} {s2 : Finset String}
    (ht : (strptime_date_format t).isSome)
    (hall : ∀ r ∈ logs, (strptime_date_format r.requestTime).isSome)
    (hsorted : SortedByTime logs)
    (hge : ∀ r ∈ logs, pkey t ≤ (ptime r).key)
    (hkey : pkey t0 ≤ pkey t)
    (hseed : pkey t = pkey t0 → s0 ⊆ seen)
    (h : dedupGo logs t seen = some (k, t2, s2)) :
    ∀ x, (ptime x).key = pkey t0 → x.taskId ∈ s0 → x ∉ k := by
  induction logs generalizing t seen k t2 s2 with
  | nil =>
    simp only [dedupGo, Option.some.injEq, Prod.mk.injEq] at h
    obtain ⟨rfl, rfl, rfl⟩ := h
    simp
  | cons r rest ih =>
    have hr := ptime_spec (hall r (by simp))
    have hrs : (strptime_date_format r.requestTime).isSome := by rw [hr]; rfl
    have hrest : ∀ x ∈ rest, (strptime_date_format x.requestTime).isSome :=
      fun x hx => hall x (by simp [hx])
    obtain ⟨hhead, hsorted'⟩ := List.pairwise_cons.mp hsorted
    rw [dedupGo_cons r rest t seen hr (pstr_spec ht)] at h
    split_ifs at h with hlt hmem
    · rw [Option.map_eq_some'] at h
      obtain ⟨⟨k', t', s'⟩, hrec, hmap⟩ := h
      simp only [Prod.mk.injEq] at hmap
      obtain ⟨rfl, rfl, rfl⟩ := hmap
      have hstrict : pkey t < (ptime r).key :=
        (DateTime.ltb_iff_key (pstr_InRange ht) (ptime_InRange hrs)).mp hlt
      have hreq : pkey r.requestTime = (ptime r).key := rfl
      intro x hx0 hxs hmemk
      rcases List.mem_cons.mp hmemk with rfl | hk'
      · omega
      · exact ih hrs hrest hsorted'
          (fun y hy => by have := hhead y hy; omega)
          (by omega)
          (fun habs => absurd habs (by omega))
          hrec x hx0 hxs hk'
    · exact ih ht hrest hsorted' (fun y hy => hge y (by simp [hy])) hkey hseed h
    · rw [Option.map_eq_some'] at h
      obtain ⟨⟨k', t', s'⟩, hrec, hmap⟩ := h
      simp only [Prod.mk.injEq] at hmap
      obtain ⟨rfl, rfl, rfl⟩ := hmap
      intro x hx0 hxs hmemk
      rcases List.mem_cons.mp hmemk with rfl | hk'
      · have hle : (ptime x).key ≤ pkey t :=
          (DateTime.not_ltb_iff_key (pstr_InRange ht) (ptime_InRange hrs)).mp
            (by cases hb : (pstr t).ltb (ptime x)
                · rfl
                · exact absurd hb hlt)
        have hge' := hge x (by simp)
        have heq : pkey t = pkey t0 := by omega
        exact hmem (hseed heq hxs)
      · exact ih ht hrest hsorted' (fun y hy => hge y (by simp [hy])) hkey
          (fun heq => (hseed heq).trans (Finset.subset_insert _ _))
          hrec x hx0 hxs hk'

/-- If every page respects the requested limit, the loop accumulates at most
`acc.length + max ltf 0` records. -/
theorem get_max_go_length (getPage : String → String → Nat → Int → List Logging)
    (hpage : ∀ f t off lim, 0 < lim → ((getPage f t off lim).length : Int) ≤ lim) :
    ∀ n : Nat, ∀ ltf : Int, ltf.toNat = n → ∀ f t acc (off : Nat) calls,
      (get_max_go getPage f t acc off ltf calls).1.length ≤ acc.length + ltf.toNat := by
  intro n
  induction n using Nat.strong_induction_on with
  | _ n ih =>
    intro ltf hn f t acc off calls
    by_cases hpos : 0 < ltf
    · by_cases hres : getPage f t off (if ltf < 1000 then ltf else 1000) = []
      · rw [get_max_go_stop getPage f t acc off ltf calls hpos hres]
        show acc.length ≤ acc.length + ltf.toNat
        omega
      · rw [get_max_go_page getPage f t acc off ltf calls hpos hres]
        have hlen : ((getPage f t off (if ltf < 1000 then ltf else 1000)).length : Int) ≤
            (if ltf < 1000 then ltf else 1000) :=
          hpage f t off _ (by split_ifs <;> omega)
        have hlim : (if ltf < 1000 then ltf else 1000) ≤ ltf := by
          split_ifs <;> omega
        have hpos' : 0 < (getPage f t off (if ltf < 1000 then ltf else 1000)).length :=
          List.length_pos.mpr hres
        have hdec : (ltf - (getPage f t off
            (if ltf < 1000 then ltf else 1000)).length).toNat < n := by omega
        have hrec := ih _ hdec (ltf - (getPage f t off
            (if ltf < 1000 then ltf else 1000)).length) rfl f t
          (acc ++ getPage f t off (if ltf < 1000 then ltf else 1000))
          (off + (getPage f t off (if ltf < 1000 then ltf else 1000)).length)
          (calls ++ [(off, if ltf < 1000 then ltf else 1000)])
        rw [List.length_append] at hrec
        omega
    · rw [get_max_go_done getPage f t acc off ltf calls hpos]
      show acc.length ≤ acc.length + ltf.toNat
      omega

/-- Every page request issued by the loop asks for
`min(maxRecords - offset, 1000)` records, with the remaining budget
`maxRecords - offset` still positive (the offset always equals the number of
records accumulated so far). -/
theorem get_max_go_calls_spec (getPage : String → String → Nat → Int → List Logging)
    (mf : Int) :
    ∀ n : Nat, ∀ ltf : Int, ltf.toNat = n →
    ∀ f t (acc : List Logging) (off : Nat) (calls : List (Nat × Int)),
      (off : Int) + ltf = mf →
      (∀ p ∈ calls, 0 < mf - (p.1 : Int) ∧
        p.2 = if mf - (p.1 : Int) < 1000 then mf - (p.1 : Int) else 1000) →
      ∀ p ∈ (get_max_go getPage f t acc off ltf calls).2,
        0 < mf - (p.1 : Int) ∧
          p.2 = if mf - (p.1 : Int) < 1000 then mf - (p.1 : Int) else 1000 := by
  intro n
  induction n using Nat.strong_induction_on with
  | _ n ih =>
    intro ltf hn f t acc off calls hoff hcalls
    have hnew : 0 < ltf → ∀ p ∈ calls ++ [((off : Nat), if ltf < 1000 then ltf else 1000)],
        0 < mf - (p.1 : Int) ∧
          p.2 = if mf - (p.1 : Int) < 1000 then mf - (p.1 : Int) else 1000 := by
      intro hpos p hp
      rcases List.mem_append.mp hp with hmem | hmem
      · exact hcalls p hmem
      · simp only [List.mem_singleton] at hmem
        subst hmem
        refine ⟨by show (0:Int) < mf - (off : Int); omega, ?_⟩
        show (if ltf < 1000 then ltf else 1000) =
          if mf - (off : Int) < 1000 then mf - (off : Int) else 1000
        have heq : mf - (off : Int) = ltf := by omega
        rw [heq]
    by_cases hpos : 0 < ltf
    · by_cases hres : getPage f t off (if ltf < 1000 then ltf else 1000) = []
      · rw [get_max_go_stop getPage f t acc off ltf calls hpos hres]
        exact hnew hpos
      · rw [get_max_go_page getPage f t acc off ltf calls hpos hres]
        have hpos' : 0 < (getPage f t off (if ltf < 1000 then ltf else 1000)).length :=
          List.length_pos.mpr hres
        have hdec : (ltf - (getPage f t off
            (if ltf < 1000 then ltf else 1000)).length).toNat < n := by omega
        exact ih _ hdec (ltf - (getPage f t off
            (if ltf < 1000 then ltf else 1000)).length) rfl f t
          (acc ++ getPage f t off (if ltf < 1000 then ltf else 1000))
          (off + (getPage f t off (if ltf < 1000 then ltf else 1000)).length)
          (calls ++ [((off : Nat), if ltf < 1000 then ltf else 1000)])
          (by push_cast; omega) (hnew hpos)
    · rw [get_max_go_done getPage f t acc off ltf calls hpos]
      exact hcalls

/-! ### Normalization and format-exclusivity facts -/

theorem remove_milliseconds_length : ∀ {logs logs2 : List Logging},
    remove_milliseconds_from_time_of_loggings logs = some logs2 →
    logs2.length = logs.length := by
  intro logs
  induction logs with
  | nil =>
    intro logs2 h
    simp only [remove_milliseconds_from_time_of_loggings, List.mapM_nil,
      Option.pure_def, Option.some_inj] at h
    simp [← h]
  | cons a l ih =>
    intro logs2 h
    simp only [remove_milliseconds_from_time_of_loggings, List.mapM_cons,
      Option.pure_def, Option.bind_eq_bind, Option.bind_eq_some,
      Option.some_inj] at h
    obtain ⟨b, hb, l2, hl2, rfl⟩ := h
    have := ih (by simpa [remove_milliseconds_from_time_of_loggings] using hl2)
    simp [this]

theorem expectChar_eq {c : Char} {cs cs' : List Char}
    (h : expectChar c cs = some cs') : cs = c :: cs' := by
  cases cs with
  | nil => simp [expectChar] at h
  | cons x xs =>
    simp only [expectChar] at h
    split_ifs at h with hx
    subst hx
    simpa using congrArg (List.cons x) (Option.some_inj.mp h)

/-- A string in whole-second `DATE_FORMAT` shape never parses against the
sub-second format: after the seconds field the first expects `Z` where the
second demands `.`. -/
theorem strptime_ms_of_date_none {s : String} {d : DateTime}
    (h : strptime_date_format s = some d) : strptime_ms_format s = none := by
  unfold strptime_date_format at h
  simp only [Option.bind_eq_bind, Option.bind_eq_some] at h
  obtain ⟨⟨d1, cs1⟩, h1, cs2, hz, hfin⟩ := h
  have hcs1 : cs1 = 'Z' :: cs2 := expectChar_eq hz
  unfold strptime_ms_format
  rw [h1]
  subst hcs1
  simp [expectChar]

theorem getLast?_mem {α : Type} {l : List α} {a : α} (h : l.getLast? = some a) :
    a ∈ l := by
  cases l with
  | nil => simp at h
  | cons x xs =>
    have hne : x :: xs ≠ [] := by simp
    rw [List.getLast?_eq_getLast _ hne] at h
    rw [← Option.some_inj.mp h]
    exact List.getLast_mem hne

/-- The pass only ever removes records (no parse hypotheses needed: a
successful run implies the parses succeeded). -/
theorem dedupGo_length {logs : List Logging} {t : String} {seen : Finset String}
    {k : List Logging} {t2 : String} {s2 : Finset String}
    (h : dedupGo logs t seen = some (k, t2, s2)) : k.length ≤ logs.length := by
  induction logs generalizing t seen k t2 s2 with
  | nil =>
    simp only [dedupGo, Option.some.injEq, Prod.mk.injEq] at h
    obtain ⟨rfl, rfl, rfl⟩ := h
    simp
  | cons r rest ih =>
    simp only [dedupGo] at h
    rcases hr : strptime_date_format r.requestTime with _ | rt
    · rw [hr] at h
      simp at h
    rcases ht : strptime_date_format t with _ | tt
    · rw [hr, ht] at h
      simp at h
    rw [hr, ht] at h
    simp only at h
    split_ifs at h with hlt hmem
    · rcases hrec : dedupGo rest r.requestTime {r.taskId} with _ | ⟨⟨k', t', s'⟩⟩ <;>
        rw [hrec] at h
      · simp at h
      · simp only [Option.some.injEq, Prod.mk.injEq] at h
        obtain ⟨rfl, rfl, rfl⟩ := h
        simpa using ih hrec
    · exact (ih h).trans (by simp)
    · rcases hrec : dedupGo rest t (insert r.taskId seen) with _ | ⟨⟨k', t', s'⟩⟩ <;>
        rw [hrec] at h
      · simp at h
      · simp only [Option.some.injEq, Prod.mk.injEq] at h
        obtain ⟨rfl, rfl, rfl⟩ := h
        simpa using ih hrec

/-- `fetch_activity_logging` factored through the normalized candidate list. -/
theorem fetch_activity_logging_eq (gp : String → String → Nat → Int → List Logging)
    (mf : Int) (ff now : DateTime) (lr : LastRun) (logs : List Logging)
    (hnorm : remove_milliseconds_from_time_of_loggings
      (get_max_fetch_activity_logging gp mf
        (lr.last_fetch_time.getD (strftime_date_format ff))
        (strftime_date_format now)) = some logs) :
    fetch_activity_logging gp mf ff now lr =
      dedup_and_set_last_run logs lr
        (lr.last_fetch_time.getD (strftime_date_format ff)) := by
  simp only [fetch_activity_logging, hnorm]

/-- The cursor-update step when nothing survived. -/
theorem dedup_and_set_of_nil (logs : List Logging) (lr : LastRun) (fd : String)
    {t2 : String} {s2 : Finset String}
    (h : dedupGo logs fd (lr.last_fetched_loggings.getD ∅) = some ([], t2, s2)) :
    dedup_and_set_last_run logs lr fd = some ([], lr) := by
  simp only [dedup_and_set_last_run, remove_duplicated_activity_logging, h,
    List.getLast?_nil]

/-- The cursor-update step when some record survived. -/
theorem dedup_and_set_of_last (logs : List Logging) (lr : LastRun) (fd : String)
    {kept : List Logging} {t2 : String} {s2 : Finset String} {lastLog : Logging}
    (h : dedupGo logs fd (lr.last_fetched_loggings.getD ∅) = some (kept, t2, s2))
    (hlast : kept.getLast? = some lastLog) :
    dedup_and_set_last_run logs lr fd =
      some (kept, ⟨some lastLog.requestTime, some s2⟩) := by
  simp only [dedup_and_set_last_run, remove_duplicated_activity_logging, h, hlast]

/-! ### Claim theorems -/

/-- C7: if the vendor returns an empty page on the first call of an
invocation, `fetch_activity_logging` returns an empty record list and the
returned `last_run` is exactly the prior cursor, unchanged.  (The first call
is made at offset 0 with limit `min(max_fetch, 1000)`; when `max_fetch ≤ 0`
no call is made at all and the result is the same.) -/
theorem claim_C7_empty_fetch_unchanged_cursor
    (gp : String → String → Nat → Int → List Logging) (mf : Int)
    (ff now : DateTime) (lr : LastRun)
    (hfirst : gp (lr.last_fetch_time.getD (strftime_date_format ff))
      (strftime_date_format now) 0 (if mf < 1000 then mf else 1000) = []) :
    fetch_activity_logging gp mf ff now lr = some ([], lr) := by
  have hcand : get_max_fetch_activity_logging gp mf
      (lr.last_fetch_time.getD (strftime_date_format ff))
      (strftime_date_format now) = [] := by
    unfold get_max_fetch_activity_logging
    by_cases hpos : 0 < mf
    · rw [get_max_go_stop _ _ _ _ _ _ _ hpos hfirst]
    · rw [get_max_go_done _ _ _ _ _ _ _ hpos]
  have hnorm : remove_milliseconds_from_time_of_loggings
      (get_max_fetch_activity_logging gp mf
        (lr.last_fetch_time.getD (strftime_date_format ff))
        (strftime_date_format now)) = some [] := by
    rw [hcand]
    rfl
  rw [fetch_activity_logging_eq gp mf ff now lr [] hnorm]
  exact dedup_and_set_of_nil [] lr _ rfl

/-- C7 witness: a vendor that always returns an empty page yields an empty
batch and an unchanged cursor. -/
theorem claim_C7_witness :
    fetch_activity_logging (fun _ _ _ _ => []) 500
      ⟨2024, 1, 1, 0, 0, 0, 0⟩ ⟨2024, 1, 2, 0, 0, 0, 0⟩
      ⟨some "2024-01-01T00:00:00Z", some {"A"}⟩ =
      some ([], ⟨some "2024-01-01T00:00:00Z", some {"A"}⟩) :=
  claim_C7_empty_fetch_unchanged_cursor (fun _ _ _ _ => []) 500
    ⟨2024, 1, 1, 0, 0, 0, 0⟩ ⟨2024, 1, 2, 0, 0, 0, 0⟩
    ⟨some "2024-01-01T00:00:00Z", some {"A"}⟩ rfl

/-- C10 (implicit): normalization is partial in the timestamp format — a
`requestTime` already in whole-second `DATE_FORMAT` shape fails the strict
parse against `'%Y-%m-%dT%H:%M:%S.%fZ'` (Python raises `ValueError`), and
the whole fetch invocation aborts before deduplication; concretely, a
vendor record at `"2024-01-01T00:00:00Z"` makes the fetch fail. -/
theorem claim_C10_normalization_partial :
    (∀ (s : String) (d : DateTime), strptime_date_format s = some d →
      strptime_ms_format s = none) ∧
    fetch_activity_logging (fun _ _ _ _ => [⟨"A", "2024-01-01T00:00:00Z"⟩]) 1
      ⟨2024, 1, 1, 0, 0, 0, 0⟩ ⟨2024, 1, 2, 0, 0, 0, 0⟩
      ⟨some "2024-01-01T00:00:00Z", some ∅⟩ = none := by
  constructor
  · exact fun s d h => strptime_ms_of_date_none h
  · have hcand : get_max_fetch_activity_logging
        (fun _ _ _ _ => [⟨"A", "2024-01-01T00:00:00Z"⟩]) 1
        "2024-01-01T00:00:00Z" (strftime_date_format ⟨2024, 1, 2, 0, 0, 0, 0⟩) =
        [⟨"A", "2024-01-01T00:00:00Z"⟩] := by
      unfold get_max_fetch_activity_logging
      rw [get_max_go_page _ _ _ _ _ _ _ (by norm_num) (by simp)]
      rw [get_max_go_done _ _ _ _ _ _ _ (by norm_num)]
      rfl
    simp only [fetch_activity_logging, Option.getD_some, hcand]
    decide

/-- C10 witness: the general half applied to the whole-second timestamp
`"2024-01-01T00:00:00Z"`. -/
theorem claim_C10_witness :
    strptime_ms_format "2024-01-01T00:00:00Z" = none :=
  claim_C10_normalization_partial.1 "2024-01-01T00:00:00Z"
    ⟨2024, 1, 1, 0, 0, 0, 0⟩ (by decide)

/-- C9 counterexample: with `max_fetch = 0` (a non-positive cap) the fetch
invocation does not report an error — it returns successfully with an empty
batch and the unchanged cursor, and issues no page request (the claim says
it should be rejected with an error before any call). -/
theorem claim_C9_counterexample :
    fetch_activity_logging (fun _ _ _ _ => [⟨"A", "2024-01-01T00:00:00.000000Z"⟩])
        0 ⟨2024, 1, 1, 0, 0, 0, 0⟩ ⟨2024, 1, 2, 0, 0, 0, 0⟩
        ⟨some "2024-01-01T00:00:00Z", some ∅⟩ =
      some ([], ⟨some "2024-01-01T00:00:00Z", some ∅⟩) ∧
    get_max_fetch_activity_logging_calls
        (fun _ _ _ _ => [⟨"A", "2024-01-01T00:00:00.000000Z"⟩]) 0
        "2024-01-01T00:00:00Z" (strftime_date_format ⟨2024, 1, 2, 0, 0, 0, 0⟩) =
      [] := by
  constructor
  · have hcand : get_max_fetch_activity_logging
        (fun _ _ _ _ => [⟨"A", "2024-01-01T00:00:00.000000Z"⟩]) 0
        "2024-01-01T00:00:00Z" (strftime_date_format ⟨2024, 1, 2, 0, 0, 0, 0⟩) =
        [] := by
      unfold get_max_fetch_activity_logging
      rw [get_max_go_done _ _ _ _ _ _ _ (by norm_num)]
    simp only [fetch_activity_logging, Option.getD_some, hcand]
    decide
  · unfold get_max_fetch_activity_logging_calls
    rw [get_max_go_done _ _ _ _ _ _ _ (by norm_num)]

/-- C9 amended: for every `max_fetch ≤ 0` the fetch issues no page request
and succeeds, returning an empty batch and the prior cursor unchanged — no
error is reported (the code has no configuration validation; the paging
loop's guard simply never fires). -/
theorem claim_C9_amended
    (gp : String → String → Nat → Int → List Logging) (mf : Int)
    (ff now : DateTime) (lr : LastRun) (hmf : mf ≤ 0) :
    fetch_activity_logging gp mf ff now lr = some ([], lr) ∧
    get_max_fetch_activity_logging_calls gp mf
      (lr.last_fetch_time.getD (strftime_date_format ff))
      (strftime_date_format now) = [] := by
  have hpos : ¬ 0 < mf := by omega
  have hcand : get_max_fetch_activity_logging gp mf
      (lr.last_fetch_time.getD (strftime_date_format ff))
      (strftime_date_format now) = [] := by
    unfold get_max_fetch_activity_logging
    rw [get_max_go_done _ _ _ _ _ _ _ hpos]
  constructor
  · have hnorm : remove_milliseconds_from_time_of_loggings
        (get_max_fetch_activity_logging gp mf
          (lr.last_fetch_time.getD (strftime_date_format ff))
          (strftime_date_format now)) = some [] := by
      rw [hcand]
      rfl
    rw [fetch_activity_logging_eq gp mf ff now lr [] hnorm]
    exact dedup_and_set_of_nil [] lr _ rfl
  · unfold get_max_fetch_activity_logging_calls
    rw [get_max_go_done _ _ _ _ _ _ _ hpos]

/-- C9 witness: the amended statement at `max_fetch = -5` with a vendor that
would have returned a record had it been called. -/
theorem claim_C9_witness :
    fetch_activity_logging (fun _ _ _ _ => [⟨"B", "2024-01-01T00:00:07.000000Z"⟩])
        (-5) ⟨2024, 1, 1, 0, 0, 0, 0⟩ ⟨2024, 1, 2, 0, 0, 0, 0⟩
        ⟨some "2024-01-01T00:00:00Z", some {"A"}⟩ =
      some ([], ⟨some "2024-01-01T00:00:00Z", some {"A"}⟩) :=
  (claim_C9_amended (fun _ _ _ _ => [⟨"B", "2024-01-01T00:00:07.000000Z"⟩]) (-5)
    ⟨2024, 1, 1, 0, 0, 0, 0⟩ ⟨2024, 1, 2, 0, 0, 0, 0⟩
    ⟨some "2024-01-01T00:00:00Z", some {"A"}⟩ (by norm_num)).1

/-- C3: the concrete boundary scenario.  With cursor
`{lastFetchTime: "2024-01-01T00:00:00Z", seenIds: {"A"}}` and the records
A@00:00:00, B@00:00:00, C@00:00:05 in that order, exactly B and C survive
(A dropped as a boundary duplicate) and the updated cursor is
`{lastFetchTime: "2024-01-01T00:00:05Z", seenIds: {"C"}}` — both at the
dedup-and-cursor-update stage (lines 240-249) on normalized records, and
through the whole fetch with the vendor serving the records in sub-second
wire form. -/
theorem claim_C3_boundary_scenario :
    dedup_and_set_last_run
        [⟨"A", "2024-01-01T00:00:00Z"⟩, ⟨"B", "2024-01-01T00:00:00Z"⟩,
          ⟨"C", "2024-01-01T00:00:05Z"⟩]
        ⟨some "2024-01-01T00:00:00Z", some {"A"}⟩ "2024-01-01T00:00:00Z" =
      some ([⟨"B", "2024-01-01T00:00:00Z"⟩, ⟨"C", "2024-01-01T00:00:05Z"⟩],
        ⟨some "2024-01-01T00:00:05Z", some {"C"}⟩) ∧
    fetch_activity_logging
        (fun _ _ off _ => if off = 0 then
          [⟨"A", "2024-01-01T00:00:00.000000Z"⟩, ⟨"B", "2024-01-01T00:00:00.000000Z"⟩,
            ⟨"C", "2024-01-01T00:00:05.000000Z"⟩] else [])
        3 ⟨2024, 1, 1, 0, 0, 0, 0⟩ ⟨2024, 1, 2, 0, 0, 0, 0⟩
        ⟨some "2024-01-01T00:00:00Z", some {"A"}⟩ =
      some ([⟨"B", "2024-01-01T00:00:00Z"⟩, ⟨"C", "2024-01-01T00:00:05Z"⟩],
        ⟨some "2024-01-01T00:00:05Z", some {"C"}⟩) := by
  constructor
  · decide
  · have hcand : get_max_fetch_activity_logging
        (fun _ _ off _ => if off = 0 then
          [⟨"A", "2024-01-01T00:00:00.000000Z"⟩, ⟨"B", "2024-01-01T00:00:00.000000Z"⟩,
            ⟨"C", "2024-01-01T00:00:05.000000Z"⟩] else [])
        3 "2024-01-01T00:00:00Z" (strftime_date_format ⟨2024, 1, 2, 0, 0, 0, 0⟩) =
        [⟨"A", "2024-01-01T00:00:00.000000Z"⟩, ⟨"B", "2024-01-01T00:00:00.000000Z"⟩,
          ⟨"C", "2024-01-01T00:00:05.000000Z"⟩] := by
      unfold get_max_fetch_activity_logging
      rw [get_max_go_page _ _ _ _ _ _ _ (by norm_num) (by simp)]
      rw [get_max_go_done _ _ _ _ _ _ _ (by norm_num)]
      rfl
    simp only [fetch_activity_logging, Option.getD_some, hcand]
    decide

/-- Concrete vendor for the pagination-boundary scenario: a full page of
1000 records at offset 0, 500 at offset 1000, and would-be-1000-more at any
later offset. -/
def pageVendor : String → String → Nat → Int → List Logging :=
  fun _ _ off _ =>
    if off = 0 then List.replicate 1000 ⟨"x", "2024-01-01T00:00:00.000000Z"⟩
    else if off = 1000 then List.replicate 500 ⟨"x", "2024-01-01T00:00:00.000000Z"⟩
    else List.replicate 1000 ⟨"x", "2024-01-01T00:00:00.000000Z"⟩

/-- C6: pagination discipline.  (a) Every page call the loop issues carries
an offset equal to the records accumulated so far, a still-positive
remaining budget `maxRecords - offset`, and a limit of
`min(maxRecords - offset, 1000)`.  (b) In the concrete scenario
`maxRecords = 1500` with the vendor returning pages of exactly 1000, then
500, then would-be-1000-more, exactly two calls are issued, at offsets 0 and
1000 (with limits 1000 and 500), and exactly 1500 candidate records come
back for deduplication. -/
theorem claim_C6_pagination_discipline :
    (∀ (gp : String → String → Nat → Int → List Logging) (mf : Int) (f t : String),
      ∀ p ∈ get_max_fetch_activity_logging_calls gp mf f t,
        0 < mf - (p.1 : Int) ∧
          p.2 = if mf - (p.1 : Int) < 1000 then mf - (p.1 : Int) else 1000) ∧
    get_max_fetch_activity_logging_calls pageVendor 1500 "f" "t" =
      [(0, 1000), (1000, 500)] ∧
    (get_max_fetch_activity_logging pageVendor 1500 "f" "t").length = 1500 := by
  have e1 : pageVendor "f" "t" 0 (if (1500 : Int) < 1000 then 1500 else 1000) =
      List.replicate 1000 ⟨"x", "2024-01-01T00:00:00.000000Z"⟩ := rfl
  have hne1 : pageVendor "f" "t" 0 (if (1500 : Int) < 1000 then 1500 else 1000) ≠ [] := by
    rw [e1]
    exact List.length_pos.mp (by rw [List.length_replicate]; norm_num)
  have step1 : get_max_go pageVendor "f" "t" [] 0 1500 [] =
      get_max_go pageVendor "f" "t"
        (List.replicate 1000 ⟨"x", "2024-01-01T00:00:00.000000Z"⟩) 1000 500
        [(0, 1000)] := by
    rw [get_max_go_page pageVendor "f" "t" [] 0 1500 [] (by norm_num) hne1, e1]
    norm_num [List.length_replicate]
  have e2 : pageVendor "f" "t" 1000 (if (500 : Int) < 1000 then 500 else 1000) =
      List.replicate 500 ⟨"x", "2024-01-01T00:00:00.000000Z"⟩ := rfl
  have hne2 : pageVendor "f" "t" 1000 (if (500 : Int) < 1000 then 500 else 1000) ≠ [] := by
    rw [e2]
    exact List.length_pos.mp (by rw [List.length_replicate]; norm_num)
  have step2 : get_max_go pageVendor "f" "t"
      (List.replicate 1000 ⟨"x", "2024-01-01T00:00:00.000000Z"⟩) 1000 500
      [(0, 1000)] =
      get_max_go pageVendor "f" "t"
        (List.replicate 1000 ⟨"x", "2024-01-01T00:00:00.000000Z"⟩ ++
          List.replicate 500 ⟨"x", "2024-01-01T00:00:00.000000Z"⟩) 1500 0
        [(0, 1000), (1000, 500)] := by
    rw [get_max_go_page pageVendor "f" "t" _ 1000 500 _ (by norm_num) hne2, e2]
    norm_num [List.length_replicate]
  have step3 : get_max_go pageVendor "f" "t"
      (List.replicate 1000 ⟨"x", "2024-01-01T00:00:00.000000Z"⟩ ++
        List.replicate 500 ⟨"x", "2024-01-01T00:00:00.000000Z"⟩) 1500 0
      [(0, 1000), (1000, 500)] =
      (List.replicate 1000 ⟨"x", "2024-01-01T00:00:00.000000Z"⟩ ++
        List.replicate 500 ⟨"x", "2024-01-01T00:00:00.000000Z"⟩,
        [(0, 1000), (1000, 500)]) :=
    get_max_go_done pageVendor "f" "t" _ 1500 0 _ (by norm_num)
  refine ⟨?_, ?_, ?_⟩
  · intro gp mf f t p hp
    exact get_max_go_calls_spec gp mf mf.toNat mf rfl f t [] 0 []
      (by push_cast; omega) (by simp) p hp
  · rw [get_max_fetch_activity_logging_calls_eq, step1, step2, step3]
  · rw [get_max_fetch_activity_logging_eq, step1, step2, step3]
    simp only [List.length_append, List.length_replicate]

/-- C6 witness: the per-call discipline applied to the first call of the
concrete scenario (offset 0, limit `min(1500 - 0, 1000) = 1000`). -/
theorem claim_C6_witness :
    0 < (1500 : Int) - (((0, 1000) : Nat × Int).1 : Int) ∧
      ((0, 1000) : Nat × Int).2 =
        if (1500 : Int) - (((0, 1000) : Nat × Int).1 : Int) < 1000
        then (1500 : Int) - (((0, 1000) : Nat × Int).1 : Int) else 1000 :=
  claim_C6_pagination_discipline.1 pageVendor 1500 "f" "t" (0, 1000)
    (by rw [claim_C6_pagination_discipline.2.1]; simp)

/-- C5: cap respected.  For a positive `max_fetch` and a vendor whose pages
never exceed the (positive) per-call limit they were asked for, a successful
fetch returns at most `max_fetch` records. -/
theorem claim_C5_cap_respected
    (gp : String → String → Nat → Int → List Logging) (mf : Int)
    (ff now : DateTime) (lr : LastRun) (recs : List Logging) (lr2 : LastRun)
    (hmf : 0 < mf)
    (hpage : ∀ f t off lim, 0 < lim → ((gp f t off lim).length : Int) ≤ lim)
    (h : fetch_activity_logging gp mf ff now lr = some (recs, lr2)) :
    recs.length ≤ mf.toNat := by
  have hlen : (get_max_fetch_activity_logging gp mf
      (lr.last_fetch_time.getD (strftime_date_format ff))
      (strftime_date_format now)).length ≤ mf.toNat := by
    have := get_max_go_length gp hpage mf.toNat mf rfl
      (lr.last_fetch_time.getD (strftime_date_format ff))
      (strftime_date_format now) [] 0 []
    simpa [get_max_fetch_activity_logging] using this
  simp only [fetch_activity_logging] at h
  rcases hn : remove_milliseconds_from_time_of_loggings
      (get_max_fetch_activity_logging gp mf
        (lr.last_fetch_time.getD (strftime_date_format ff))
        (strftime_date_format now)) with _ | logs
  · rw [hn] at h
    simp at h
  · rw [hn] at h
    have hlogs : logs.length ≤ mf.toNat := by
      rw [remove_milliseconds_length hn]
      exact hlen
    simp only [dedup_and_set_last_run, remove_duplicated_activity_logging] at h
    rcases hd : dedupGo logs (lr.last_fetch_time.getD (strftime_date_format ff))
        (lr.last_fetched_loggings.getD ∅) with _ | ⟨⟨kept, t2, s2⟩⟩
    · rw [hd] at h
      simp at h
    · rw [hd] at h
      have hkept : kept.length ≤ logs.length := dedupGo_length hd
      have h2 : (match kept.getLast? with
          | none => some (kept, lr)
          | some lastLog =>
            some (kept, (⟨some lastLog.requestTime, some s2⟩ : LastRun))) =
          some (recs, lr2) := h
      rcases hl : kept.getLast? with _ | lastLog <;> rw [hl] at h2 <;>
        simp only [Option.some.injEq, Prod.mk.injEq] at h2 <;>
        obtain ⟨rfl, -⟩ := h2 <;> omega

/-- Vendor for the C5 witness: one record on the first page (when the limit
allows it), nothing afterwards. -/
def pageOne : String → String → Nat → Int → List Logging :=
  fun _ _ off lim =>
    if off = 0 ∧ 1 ≤ lim then [⟨"A", "2024-01-01T00:00:00.000000Z"⟩] else []

/-- C5 witness: the cap theorem applied to a concrete fetch with
`max_fetch = 2` that returns one record. -/
theorem claim_C5_witness :
    ([⟨"A", "2024-01-01T00:00:00Z"⟩] : List Logging).length ≤ (2 : Int).toNat :=
  claim_C5_cap_respected pageOne 2 ⟨2024, 1, 1, 0, 0, 0, 0⟩ ⟨2024, 1, 2, 0, 0, 0, 0⟩
    ⟨some "2024-01-01T00:00:00Z", some ∅⟩
    [⟨"A", "2024-01-01T00:00:00Z"⟩]
    ⟨some "2024-01-01T00:00:00Z", some {"A"}⟩
    (by norm_num)
    (by
      intro f t off lim hlim
      simp only [pageOne]
      split_ifs with hcond
      · simpa using hcond.2
      · simpa using hlim.le)
    (by
      have hcand : get_max_fetch_activity_logging pageOne 2
          "2024-01-01T00:00:00Z" (strftime_date_format ⟨2024, 1, 2, 0, 0, 0, 0⟩) =
          [⟨"A", "2024-01-01T00:00:00.000000Z"⟩] := by
        unfold get_max_fetch_activity_logging
        rw [get_max_go_page _ _ _ _ _ _ _ (by norm_num) (by decide)]
        rw [get_max_go_stop _ _ _ _ _ _ _ (by decide) (by decide)]
        rfl
      simp only [fetch_activity_logging, Option.getD_some, hcand]
      decide)

theorem dedup_and_set_kept {logs : List Logging} {lr : LastRun} {fd : String}
    {k : List Logging} {t2 : String} {s2 : Finset String}
    {kept : List Logging} {lr2 : LastRun}
    (hd : dedupGo logs fd (lr.last_fetched_loggings.getD ∅) = some (k, t2, s2))
    (h : dedup_and_set_last_run logs lr fd = some (kept, lr2)) : kept = k := by
  simp only [dedup_and_set_last_run, remove_duplicated_activity_logging, hd] at h
  have h2 : (match k.getLast? with
      | none => some (k, lr)
      | some lastLog =>
        some (k, (⟨some lastLog.requestTime, some s2⟩ : LastRun))) =
      some (kept, lr2) := h
  rcases hl : k.getLast? with _ | lastLog <;> rw [hl] at h2 <;>
    simp only [Option.some.injEq, Prod.mk.injEq] at h2 <;>
    exact h2.1.symm

/-- C2: no duplicate delivery across two sequential invocations.  If the
second invocation starts from the first's returned cursor, and in each
invocation the normalized candidates parse, arrive in non-decreasing time
order, and sit at or after that invocation's watermark (the vendor is
append-only past the watermark), then no id is returned by both invocations
with the same `requestTime`. -/
theorem claim_C2_no_duplicate_delivery
    (gp1 gp2 : String → String → Nat → Int → List Logging) (mf1 mf2 : Int)
    (ff now1 now2 : DateTime) (lr0 lr1 lr2 : LastRun) (t0 t1 : String)
    (logs1 logs2 kept1 kept2 : List Logging)
    (hlr0 : lr0.last_fetch_time = some t0)
    (ht0 : (strptime_date_format t0).isSome)
    (hnorm1 : remove_milliseconds_from_time_of_loggings
      (get_max_fetch_activity_logging gp1 mf1 t0 (strftime_date_format now1)) =
        some logs1)
    (hall1 : ∀ r ∈ logs1, (strptime_date_format r.requestTime).isSome)
    (hsorted1 : SortedByTime logs1)
    (hge1 : ∀ r ∈ logs1, pkey t0 ≤ (ptime r).key)
    (hf1 : fetch_activity_logging gp1 mf1 ff now1 lr0 = some (kept1, lr1))
    (hlr1 : lr1.last_fetch_time = some t1)
    (hnorm2 : remove_milliseconds_from_time_of_loggings
      (get_max_fetch_activity_logging gp2 mf2 t1 (strftime_date_format now2)) =
        some logs2)
    (hall2 : ∀ r ∈ logs2, (strptime_date_format r.requestTime).isSome)
    (hsorted2 : SortedByTime logs2)
    (hge2 : ∀ r ∈ logs2, pkey t1 ≤ (ptime r).key)
    (hf2 : fetch_activity_logging gp2 mf2 ff now2 lr1 = some (kept2, lr2)) :
    ∀ r1 ∈ kept1, ∀ r2 ∈ kept2, r1.taskId = r2.taskId →
      (ptime r1).key ≠ (ptime r2).key := by
  have hfd0 : lr0.last_fetch_time.getD (strftime_date_format ff) = t0 := by
    rw [hlr0]
    rfl
  have hfe1 := fetch_activity_logging_eq gp1 mf1 ff now1 lr0 logs1
    (by rw [hfd0]; exact hnorm1)
  rw [hfd0] at hfe1
  have h1 : dedup_and_set_last_run logs1 lr0 t0 = some (kept1, lr1) :=
    hfe1.symm.trans hf1
  obtain ⟨⟨keptA, t2, s2⟩, hd1⟩ :=
    dedupGo_isSome logs1 t0 (lr0.last_fetched_loggings.getD ∅) ht0 hall1
  obtain rfl : keptA = kept1 := (dedup_and_set_kept hd1 h1).symm
  rcases hk : keptA with _ | ⟨k0, krest⟩
  · intro r1 hr1
    simp at hr1
  · rw [← hk]
    have hne : keptA ≠ [] := by rw [hk]; simp
    have hl : keptA.getLast? = some (keptA.getLast hne) :=
      List.getLast?_eq_getLast _ hne
    have hlr1' : lr1 = ⟨some (keptA.getLast hne).requestTime, some s2⟩ := by
      have := (dedup_and_set_of_last logs1 lr0 t0 hd1 hl).symm.trans h1
      simp only [Option.some.injEq, Prod.mk.injEq] at this
      exact this.2.symm
    have ht1eq : t1 = (keptA.getLast hne).requestTime := by
      rw [hlr1'] at hlr1
      simpa using hlr1.symm
    have hlastmem : keptA.getLast hne ∈ logs1 :=
      (dedupGo_sublist ht0 hall1 hd1).subset (List.getLast_mem hne)
    have ht1 : (strptime_date_format t1).isSome := by
      rw [ht1eq]
      exact hall1 _ hlastmem
    have hlastkey : (ptime (keptA.getLast hne)).key = pkey t2 :=
      dedupGo_last_kept ht0 hall1 hsorted1 hge1 hd1 _ hl
    have ht1key : pkey t1 = pkey t2 := by
      rw [ht1eq]
      exact hlastkey
    have hfd1 : lr1.last_fetch_time.getD (strftime_date_format ff) = t1 := by
      rw [hlr1]
      rfl
    have hfe2 := fetch_activity_logging_eq gp2 mf2 ff now2 lr1 logs2
      (by rw [hfd1]; exact hnorm2)
    rw [hfd1] at hfe2
    have h2 : dedup_and_set_last_run logs2 lr1 t1 = some (kept2, lr2) :=
      hfe2.symm.trans hf2
    have hseed2 : lr1.last_fetched_loggings.getD ∅ = s2 := by
      rw [hlr1']
      rfl
    obtain ⟨⟨keptB, t2', s2'⟩, hd2⟩ :=
      dedupGo_isSome logs2 t1 (lr1.last_fetched_loggings.getD ∅) ht1 hall2
    obtain rfl : keptB = kept2 := (dedup_and_set_kept hd2 h2).symm
    rw [hseed2] at hd2
    intro r1 hr1 r2 hr2 hid heq
    have hr1le : (ptime r1).key ≤ pkey t2 := dedupGo_kept_le ht0 hall1 hd1 r1 hr1
    have hr2mem : r2 ∈ logs2 := (dedupGo_sublist ht1 hall2 hd2).subset hr2
    have hr2ge : pkey t1 ≤ (ptime r2).key := hge2 r2 hr2mem
    have hr1final : (ptime r1).key = pkey t2 := by omega
    have hr1seen : r1.taskId ∈ s2 :=
      dedupGo_kept_final_mem ht0 hall1 hd1 r1 hr1 hr1final
    have hr2seen : r2.taskId ∈ s2 := hid ▸ hr1seen
    have hr2key : (ptime r2).key = pkey t1 := by omega
    exact dedupGo_boundary_drop ht1 hall2 hsorted2 hge2 (le_refl (pkey t1))
      (fun _ => Finset.Subset.refl s2) hd2 r2 hr2key hr2seen hr2

/-- Vendor page for the first invocation of the C2 witness. -/
def pageFirstInv : String → String → Nat → Int → List Logging :=
  fun _ _ off _ =>
    if off = 0 then
      [⟨"B", "2024-01-01T00:00:00.000000Z"⟩, ⟨"C", "2024-01-01T00:00:05.000000Z"⟩]
    else []

/-- Vendor page for the second invocation of the C2 witness (append-only:
it re-serves the boundary record C, then a new record reusing id "B" at a
later second — ids are unique only within a request-time bucket). -/
def pageSecondInv : String → String → Nat → Int → List Logging :=
  fun _ _ off _ =>
    if off = 0 then
      [⟨"C", "2024-01-01T00:00:05.000000Z"⟩, ⟨"B", "2024-01-01T00:00:07.000000Z"⟩]
    else []

/-- C2 witness: two sequential concrete invocations; the first returns B and
C, the second drops the re-served boundary record C and returns the record
with id "B" at the later second 07 — the shared id "B" appears in both
batches only with distinct request times. -/
theorem claim_C2_witness :
    (ptime ⟨"B", "2024-01-01T00:00:00Z"⟩).key ≠
      (ptime ⟨"B", "2024-01-01T00:00:07Z"⟩).key :=
  claim_C2_no_duplicate_delivery pageFirstInv pageSecondInv 2 2
    ⟨2024, 1, 1, 0, 0, 0, 0⟩ ⟨2024, 1, 2, 0, 0, 0, 0⟩ ⟨2024, 1, 2, 0, 0, 0, 0⟩
    ⟨some "2024-01-01T00:00:00Z", some {"A"}⟩
    ⟨some "2024-01-01T00:00:05Z", some {"C"}⟩
    ⟨some "2024-01-01T00:00:07Z", some {"B"}⟩
    "2024-01-01T00:00:00Z" "2024-01-01T00:00:05Z"
    [⟨"B", "2024-01-01T00:00:00Z"⟩, ⟨"C", "2024-01-01T00:00:05Z"⟩]
    [⟨"C", "2024-01-01T00:00:05Z"⟩, ⟨"B", "2024-01-01T00:00:07Z"⟩]
    [⟨"B", "2024-01-01T00:00:00Z"⟩, ⟨"C", "2024-01-01T00:00:05Z"⟩]
    [⟨"B", "2024-01-01T00:00:07Z"⟩]
    rfl (by decide)
    (by
      have hcand : get_max_fetch_activity_logging pageFirstInv 2
          "2024-01-01T00:00:00Z" (strftime_date_format ⟨2024, 1, 2, 0, 0, 0, 0⟩) =
          [⟨"B", "2024-01-01T00:00:00.000000Z"⟩,
            ⟨"C", "2024-01-01T00:00:05.000000Z"⟩] := by
        unfold get_max_fetch_activity_logging
        rw [get_max_go_page _ _ _ _ _ _ _ (by norm_num) (by decide)]
        rw [get_max_go_done _ _ _ _ _ _ _ (by decide)]
        rfl
      rw [hcand]
      decide)
    (by decide)
    (by unfold SortedByTime; decide)
    (by decide)
    (by
      have hcand : get_max_fetch_activity_logging pageFirstInv 2
          "2024-01-01T00:00:00Z" (strftime_date_format ⟨2024, 1, 2, 0, 0, 0, 0⟩) =
          [⟨"B", "2024-01-01T00:00:00.000000Z"⟩,
            ⟨"C", "2024-01-01T00:00:05.000000Z"⟩] := by
        unfold get_max_fetch_activity_logging
        rw [get_max_go_page _ _ _ _ _ _ _ (by norm_num) (by decide)]
        rw [get_max_go_done _ _ _ _ _ _ _ (by decide)]
        rfl
      simp only [fetch_activity_logging, Option.getD_some, hcand]
      decide)
    rfl
    (by
      have hcand : get_max_fetch_activity_logging pageSecondInv 2
          "2024-01-01T00:00:05Z" (strftime_date_format ⟨2024, 1, 2, 0, 0, 0, 0⟩) =
          [⟨"C", "2024-01-01T00:00:05.000000Z"⟩,
            ⟨"B", "2024-01-01T00:00:07.000000Z"⟩] := by
        unfold get_max_fetch_activity_logging
        rw [get_max_go_page _ _ _ _ _ _ _ (by norm_num) (by decide)]
        rw [get_max_go_done _ _ _ _ _ _ _ (by decide)]
        rfl
      rw [hcand]
      decide)
    (by decide)
    (by unfold SortedByTime; decide)
    (by decide)
    (by
      have hcand : get_max_fetch_activity_logging pageSecondInv 2
          "2024-01-01T00:00:05Z" (strftime_date_format ⟨2024, 1, 2, 0, 0, 0, 0⟩) =
          [⟨"C", "2024-01-01T00:00:05.000000Z"⟩,
            ⟨"B", "2024-01-01T00:00:07.000000Z"⟩] := by
        unfold get_max_fetch_activity_logging
        rw [get_max_go_page _ _ _ _ _ _ _ (by norm_num) (by decide)]
        rw [get_max_go_done _ _ _ _ _ _ _ (by decide)]
        rfl
      simp only [fetch_activity_logging, Option.getD_some, hcand]
      decide)
    ⟨"B", "2024-01-01T00:00:00Z"⟩ (by decide)
    ⟨"B", "2024-01-01T00:00:07Z"⟩ (by decide)
    rfl
